import Mathlib

/-!
# Verification of `vectopng` (Android vector drawable to PNG converter)

Shallow embedding of `vectopng.go` into Lean 4.  Strings are modelled with
Lean `String`/`List Char`; the Go `map[string]color.Color` is modelled as an
association list whose insert conses in front (lookup returns the most recent
binding, which is observationally the Go map's overwrite semantics); Go's
`color.NRGBA` 8-bit channels are modelled as `Nat`s produced by the same
shift/or arithmetic as the source; the float dimensions and scale factors are
modelled as `ℚ` (no floating point rounding is relevant to the claims, all
values involved are small integers or exact ratios).  Fallible functions
return `Except`.  The external rendering collaborator (tdewolff/canvas) is
modelled as a trace of drawing commands; its SVG path mini-language parser is
abstracted as a boolean predicate parameter.
-/

/-- A 4-channel straight-alpha color, as Go's `color.NRGBA{r, g, b, a}`
(fields in the source order R, G, B, A; each channel is a byte, and every
value constructed below is `< 256` because it is `hi <<< 4 ||| lo` with
nibbles `< 16`). -/
structure NRGBA where
  r : Nat
  g : Nat
  b : Nat
  a : Nat
deriving DecidableEq, Repr

/-- The color table `colorDefs` (`map[string]color.Color` in the source),
modelled as an association list. -/
abbrev ColorTable := List (String × NRGBA)

/-- Go map lookup `colorDefs[c]`: the most recent binding wins. -/
def mapGet : ColorTable → String → Option NRGBA
  | [], _ => none
  | (k, v) :: rest, key => if k = key then some v else mapGet rest key

/-- Go map insert `colorDefs[name] = color`: cons in front, shadowing any
older binding (observationally equal to in-place overwrite under `mapGet`). -/
def mapSet (t : ColorTable) (k : String) (v : NRGBA) : ColorTable :=
  (k, v) :: t

/-- The character class `[0-9a-fA-F]` of `colorPattern` (vectopng.go line 21). -/
def isHexDigit (c : Char) : Bool :=
  ('0'.toNat ≤ c.toNat && c.toNat ≤ '9'.toNat) ||
  ('a'.toNat ≤ c.toNat && c.toNat ≤ 'f'.toNat) ||
  ('A'.toNat ≤ c.toNat && c.toNat ≤ 'F'.toNat)

/-- `hexToValue` (vectopng.go lines 270-279): nibble value of a hex digit
byte, 0 for anything else. -/
def hexToValue (c : Char) : Nat :=
  if '0'.toNat ≤ c.toNat && c.toNat ≤ '9'.toNat then c.toNat - '0'.toNat
  else if 'a'.toNat ≤ c.toNat && c.toNat ≤ 'f'.toNat then c.toNat - 'a'.toNat + 10
  else if 'A'.toNat ≤ c.toNat && c.toNat ≤ 'F'.toNat then c.toNat - 'A'.toNat + 10
  else 0

/-- The channel arithmetic `hexToValue(hi)<<4 | hexToValue(lo)` used by
`parseColor` (vectopng.go lines 224-251). -/
def nibblePair (hi lo : Char) : Nat :=
  hexToValue hi <<< 4 ||| hexToValue lo

/-- The anchored regular expression `^#([0-9a-fA-F]{3,8})$` (vectopng.go
line 21) applied via `FindSubmatch`: on a match it returns the capture group
(the 3 to 8 hex digits after `#`), otherwise `none`. -/
def colorMatch (c : String) : Option (List Char) :=
  match c.data with
  | x :: rest =>
      if x = '#' ∧ 3 ≤ rest.length ∧ rest.length ≤ 8 ∧ rest.all isHexDigit then
        some rest
      else none
  | [] => none

/-- Error values of the program; `invalidColor t` is
`fmt.Errorf("Invalid color \"%s\"", t)`, `invalidDimension f t` is
`fmt.Errorf("Invalid %s \"%s\"", f, t)`, and `rangeError num` is the
`*strconv.NumError` with `ErrRange` that `strconv.ParseFloat(num, 32)`
returns for an out-of-range value, propagated unchanged by `parseDpNum`
(vectopng.go lines 263-266). -/
inductive VError where
  | invalidColor (text : String)
  | invalidDimension (field text : String)
  | rangeError (num : String)
deriving DecidableEq, Repr

/-- `parseColor` (vectopng.go lines 212-255): table lookup first, then the
regex match, then the 3/4/6/8-digit branches; every other shape is
`Invalid color "<text>"`. -/
def parseColor (c : String) (defs : ColorTable) : Except VError NRGBA :=
  match mapGet defs c with
  | some v => .ok v
  | none =>
    match colorMatch c with
    | none => .error (.invalidColor c)
    | some spec =>
      match spec with
      | [r, g, b] =>
          .ok ⟨nibblePair r r, nibblePair g g, nibblePair b b, 255⟩
      | [a, r, g, b] =>
          .ok ⟨nibblePair r r, nibblePair g g, nibblePair b b, nibblePair a a⟩
      | [r1, r2, g1, g2, b1, b2] =>
          .ok ⟨nibblePair r1 r2, nibblePair g1 g2, nibblePair b1 b2, 255⟩
      | [a1, a2, r1, r2, g1, g2, b1, b2] =>
          .ok ⟨nibblePair r1 r2, nibblePair g1 g2, nibblePair b1 b2, nibblePair a1 a2⟩
      | _ => .error (.invalidColor c)

/-- The specification's reference mapping for the Color Parser (§4.1 of the
spec, quoted by claim C2), written with the spec's nibble-duplication
arithmetic (`R→RR` means the byte `16*R + R`, etc.) rather than the source's
shift/or.  Used only to state the refinement theorem for C2. -/
def parseColorSpec (c : String) (defs : ColorTable) : Except VError NRGBA :=
  match mapGet defs c with
  | some v => .ok v
  | none =>
    match c.data with
    | x :: ds =>
      if x = '#' ∧ ds.all isHexDigit then
        match ds with
        | [r, g, b] =>
            .ok ⟨16 * hexToValue r + hexToValue r, 16 * hexToValue g + hexToValue g,
                 16 * hexToValue b + hexToValue b, 255⟩
        | [a, r, g, b] =>
            .ok ⟨16 * hexToValue r + hexToValue r, 16 * hexToValue g + hexToValue g,
                 16 * hexToValue b + hexToValue b, 16 * hexToValue a + hexToValue a⟩
        | [r1, r2, g1, g2, b1, b2] =>
            .ok ⟨16 * hexToValue r1 + hexToValue r2, 16 * hexToValue g1 + hexToValue g2,
                 16 * hexToValue b1 + hexToValue b2, 255⟩
        | [a1, a2, r1, r2, g1, g2, b1, b2] =>
            .ok ⟨16 * hexToValue r1 + hexToValue r2, 16 * hexToValue g1 + hexToValue g2,
                 16 * hexToValue b1 + hexToValue b2, 16 * hexToValue a1 + hexToValue a2⟩
        | _ => .error (.invalidColor c)
      else .error (.invalidColor c)
    | [] => .error (.invalidColor c)

lemma hexToValue_lt (c : Char) : hexToValue c < 16 := by
  have h0 : '0'.toNat = 48 := rfl
  have h9 : '9'.toNat = 57 := rfl
  have ha : 'a'.toNat = 97 := rfl
  have hf : 'f'.toNat = 102 := rfl
  have hA : 'A'.toNat = 65 := rfl
  have hF : 'F'.toNat = 70 := rfl
  unfold hexToValue
  rw [h0, h9, ha, hf, hA, hF]
  split
  · next h => simp only [Bool.and_eq_true, decide_eq_true_eq] at h; omega
  · split
    · next h => simp only [Bool.and_eq_true, decide_eq_true_eq] at h; omega
    · split
      · next h => simp only [Bool.and_eq_true, decide_eq_true_eq] at h; omega
      · omega

lemma shiftOr_eq : ∀ h l : Fin 16, ((h : Nat) <<< 4 ||| (l : Nat)) = 16 * h + l := by
  decide

lemma nibblePair_eq (x y : Char) :
    nibblePair x y = 16 * hexToValue x + hexToValue y := by
  have hx := hexToValue_lt x
  have hy := hexToValue_lt y
  have h := shiftOr_eq ⟨hexToValue x, hx⟩ ⟨hexToValue y, hy⟩
  simpa [nibblePair] using h

/-- C2: for every input string and table state, `parseColor` computes exactly
the reference mapping of the specification: a table key returns the cached
value; otherwise `#` + 3/4/6/8 hex digits produce the documented channel
bytes (nibble duplication for 3/4 digits, direct byte pairs for 6/8, alpha
255 when absent, alpha from the leading digit(s) otherwise); everything else
fails with `InvalidColor` naming the offending text. -/
theorem parseColor_eq_spec (c : String) (defs : ColorTable) :
    parseColor c defs = parseColorSpec c defs := by
  unfold parseColor parseColorSpec
  cases hm : mapGet defs c with
  | some v => rfl
  | none =>
    unfold colorMatch
    cases hd : c.data with
    | nil => rfl
    | cons x ds =>
      by_cases hx : x = '#'
      · subst hx
        by_cases hhex : ds.all isHexDigit
        · rcases ds with _ | ⟨a, _ | ⟨b, _ | ⟨c3, _ | ⟨d, _ | ⟨e, _ | ⟨f, _ | ⟨g, _ | ⟨h, tl⟩⟩⟩⟩⟩⟩⟩⟩ <;>
            first
              | (rcases tl with _ | ⟨i, tl2⟩ <;> simp [hhex, nibblePair_eq])
              | (simp [hhex, nibblePair_eq])
        · simp [hhex]
      · simp [hx]

/-- One `<color name="...">...</color>` entry of an Android color resource
file, as decoded by the external XML deserializer (`colorDef` struct,
vectopng.go lines 39-42). -/
structure ColorDef where
  name : String
  color : String
deriving DecidableEq, Repr

/-- The inner `for _, colorDef := range colors` pass of `parseColorsFile`
(vectopng.go lines 197-204): resolve each entry against the current table,
inserting successes under the `"@color/" + name` key and appending failures
to `remaining`.  Note that, as in the source, `remaining` is an accumulator
that is never reset. -/
def resolvePass : ColorTable → List ColorDef → List ColorDef → ColorTable × List ColorDef
  | defs, [], remaining => (defs, remaining)
  | defs, cd :: rest, remaining =>
    match parseColor cd.color defs with
    | .ok v => resolvePass (mapSet defs ("@color/" ++ cd.name) v) rest remaining
    | .error _ => resolvePass defs rest (remaining ++ [cd])

/-- The outer `for true` loop of `parseColorsFile` (vectopng.go lines
196-209), with an explicit fuel parameter counting the passes still allowed:
`none` means the loop did not finish within `fuel` passes (so
`(∀ fuel, ... = none)` states that the Go loop never terminates).  Exactly as
in the source, the loop stops when `remainingColors` is empty or has the same
length as the pass's input, and otherwise continues with
`colors = remainingColors` — without resetting the accumulator. -/
def resolveLoop : Nat → List ColorDef → ColorTable → List ColorDef → Option ColorTable
  | 0, _, _, _ => none
  | fuel + 1, colors, defs, remaining =>
    let p := resolvePass defs colors remaining
    if p.2.length = 0 ∨ colors.length = p.2.length then some p.1
    else resolveLoop fuel p.2 p.1 p.2

/-- `parseColorsFile` (vectopng.go lines 183-210) after the external file
read and XML decode: the fixed-point resolution of the decoded entries into
the table, starting from the table `defs` built from the `-color` flags. -/
def parseColorsFile (colors : List ColorDef) (defs : ColorTable) (fuel : Nat) :
    Option ColorTable :=
  resolveLoop fuel colors defs []

/-- The same loop as `resolveLoop`, instrumented to record the table at the
end of every executed pass (used to state the pass-to-pass invariant of
claim C9). -/
def resolveTrace : Nat → List ColorDef → ColorTable → List ColorDef → List ColorTable
  | 0, _, _, _ => []
  | fuel + 1, colors, defs, remaining =>
    let p := resolvePass defs colors remaining
    if p.2.length = 0 ∨ colors.length = p.2.length then [p.1]
    else p.1 :: resolveTrace fuel p.2 p.1 p.2

/-- C8: on the colors file `[a="@color/b", b="#FF0000"]` the loop does not
finish within 1 pass, finishes within 2 passes, and the resulting table maps
both `@color/a` and `@color/b` to opaque red — the forward reference is
resolved although the file is not in dependency order. -/
theorem parseColorsFile_forward_reference :
    parseColorsFile [⟨"a", "@color/b"⟩, ⟨"b", "#FF0000"⟩] [] 1 = none
    ∧ parseColorsFile [⟨"a", "@color/b"⟩, ⟨"b", "#FF0000"⟩] [] 2 =
        some [("@color/a", ⟨255, 0, 0, 255⟩), ("@color/b", ⟨255, 0, 0, 255⟩)]
    ∧ mapGet [("@color/a", ⟨255, 0, 0, 255⟩), ("@color/b", ⟨255, 0, 0, 255⟩)] "@color/a" =
        some ⟨255, 0, 0, 255⟩
    ∧ mapGet [("@color/a", ⟨255, 0, 0, 255⟩), ("@color/b", ⟨255, 0, 0, 255⟩)] "@color/b" =
        some ⟨255, 0, 0, 255⟩ := by
  refine ⟨rfl, rfl, rfl, rfl⟩

lemma resolvePass_all_fail (cd : ColorDef) :
    ∀ (n : Nat) (defs : ColorTable) (rem : List ColorDef) (e : VError),
      parseColor cd.color defs = .error e →
      resolvePass defs (List.replicate n cd) rem = (defs, rem ++ List.replicate n cd) := by
  intro n
  induction n with
  | zero => intro defs rem e _; simp [resolvePass]
  | succ n ih =>
    intro defs rem e hfail
    rw [List.replicate_succ, resolvePass, hfail, ih defs (rem ++ [cd]) e hfail]
    simp [List.replicate_succ, List.append_assoc]

lemma resolveLoop_stuck_entry (cd : ColorDef) (defs : ColorTable) (e : VError)
    (hfail : parseColor cd.color defs = .error e) :
    ∀ (fuel n : Nat), 0 < n →
      resolveLoop fuel (List.replicate n cd) defs (List.replicate n cd) = none := by
  intro fuel
  induction fuel with
  | zero => intro n _; rfl
  | succ fuel ih =>
    intro n hn
    have hpass := resolvePass_all_fail cd n defs (List.replicate n cd) e hfail
    rw [resolveLoop]
    simp only [hpass, ← List.replicate_add]
    have h1 : ¬(List.replicate (n + n) cd).length = 0 := by
      simp [List.length_replicate]; omega
    have h2 : ¬(List.replicate n cd).length = (List.replicate (n + n) cd).length := by
      simp [List.length_replicate]; omega
    rw [if_neg (by push_neg; exact ⟨h1, h2⟩)]
    exact ih (n + n) (by omega)

/-- C1 (code bug): on the colors file `[a="#F00", b="@color/missing"]` the
resolution loop of `parseColorsFile` never terminates: the first pass makes
progress (`a` resolves) but `b` can never resolve, and since
`remainingColors` is never reset between passes the accumulator keeps
growing, so neither exit condition (`len(remainingColors) == 0` or
`len(colors) == len(remainingColors)`) ever holds.  Formally: no amount of
fuel completes the loop. -/
theorem parseColorsFile_diverges :
    ∀ fuel : Nat,
      parseColorsFile [⟨"a", "#F00"⟩, ⟨"b", "@color/missing"⟩] [] fuel = none := by
  intro fuel
  cases fuel with
  | zero => rfl
  | succ fuel =>
    have h1 : resolvePass [] [⟨"a", "#F00"⟩, ⟨"b", "@color/missing"⟩] [] =
        ([("@color/a", ⟨255, 0, 0, 255⟩)], [⟨"b", "@color/missing"⟩]) := rfl
    rw [parseColorsFile, resolveLoop]
    simp only [h1]
    rw [if_neg (by simp)]
    have hfail : parseColor (ColorDef.color ⟨"b", "@color/missing"⟩)
        [("@color/a", ⟨255, 0, 0, 255⟩)] = .error (.invalidColor "@color/missing") := rfl
    have := resolveLoop_stuck_entry ⟨"b", "@color/missing"⟩
      [("@color/a", ⟨255, 0, 0, 255⟩)] (.invalidColor "@color/missing") hfail fuel 1 (by omega)
    simpa using this

/-- `StableExt t t'` says every binding visible in `t` is still visible with
the same value in `t'`: nothing that was resolved into `t` has been
overwritten with a different value on the way to `t'`. -/
def StableExt (t t' : ColorTable) : Prop :=
  ∀ k v, mapGet t k = some v → mapGet t' k = some v

lemma StableExt.refl (t : ColorTable) : StableExt t t := fun _ _ h => h

lemma StableExt.trans {t₁ t₂ t₃ : ColorTable}
    (h₁ : StableExt t₁ t₂) (h₂ : StableExt t₂ t₃) : StableExt t₁ t₃ :=
  fun k v h => h₂ k v (h₁ k v h)

instance : IsTrans ColorTable StableExt := ⟨fun _ _ _ => StableExt.trans⟩

lemma mapGet_mapSet_self (t : ColorTable) (k : String) (v : NRGBA) :
    mapGet (mapSet t k v) k = some v := by
  simp [mapGet, mapSet]

lemma mapGet_mapSet_ne (t : ColorTable) (k : String) (v : NRGBA) (k' : String)
    (h : k ≠ k') : mapGet (mapSet t k v) k' = mapGet t k' := by
  simp [mapGet, mapSet, h]

lemma colorKey_inj {a b : String} (h : "@color/" ++ a = "@color/" ++ b) : a = b := by
  have hd := congrArg String.data h
  simp only [String.data_append] at hd
  exact String.ext (List.append_cancel_left hd)

lemma colorKey_head (n : String) :
    ("@color/" ++ n).data.head? = some '@' := rfl

lemma parseColor_hex_head {r : String} {defs : ColorTable} {v : NRGBA}
    (hok : parseColor r defs = .ok v) (hm : mapGet defs r = none) :
    r.data.head? = some '#' := by
  unfold parseColor at hok
  rw [hm] at hok
  cases hcm : colorMatch r with
  | none => rw [hcm] at hok; exact absurd hok (by simp)
  | some spec =>
    unfold colorMatch at hcm
    cases hd : r.data with
    | nil => rw [hd] at hcm; exact absurd hcm (by simp)
    | cons x rest =>
      rw [hd] at hcm
      have hcm' : (if x = '#' ∧ 3 ≤ rest.length ∧ rest.length ≤ 8 ∧ rest.all isHexDigit
          then some rest else none) = some spec := hcm
      by_cases hx : x = '#' ∧ 3 ≤ rest.length ∧ rest.length ≤ 8 ∧ rest.all isHexDigit
      · simp [hx.1]
      · rw [if_neg hx] at hcm'
        exact absurd hcm' (by simp)

/-- Inserting a binding for an `@color/`-key whose visible value (if any)
already agrees with the inserted value does not change the result of any
successful `parseColor`. -/
lemma parseColor_stable {r : String} {defs : ColorTable} {v : NRGBA}
    (n : String) (w : NRGBA)
    (hok : parseColor r defs = .ok v)
    (hcons : ∀ u, mapGet defs ("@color/" ++ n) = some u → u = w) :
    parseColor r (mapSet defs ("@color/" ++ n) w) = .ok v := by
  cases hm : mapGet defs r with
  | some u =>
    have hval : parseColor r defs = .ok u := by
      unfold parseColor; rw [hm]
    have huv : u = v := by
      rw [hok] at hval; exact (Except.ok.inj hval).symm
    by_cases hk : ("@color/" ++ n) = r
    · have hw : u = w := hcons u (by rw [hk, hm])
      have : mapGet (mapSet defs ("@color/" ++ n) w) r = some w := by
        rw [← hk]; exact mapGet_mapSet_self _ _ _
      unfold parseColor
      rw [this, ← hw, huv]
    · have : mapGet (mapSet defs ("@color/" ++ n) w) r = some u := by
        rw [mapGet_mapSet_ne _ _ _ _ hk, hm]
      unfold parseColor
      rw [this, huv]
  | none =>
    have hhead := parseColor_hex_head hok hm
    have hk : ("@color/" ++ n) ≠ r := by
      intro h
      have := colorKey_head n
      rw [h, hhead] at this
      exact absurd (Option.some.inj this) (by decide)
    have hm' : mapGet (mapSet defs ("@color/" ++ n) w) r = none := by
      rw [mapGet_mapSet_ne _ _ _ _ hk, hm]
    unfold parseColor at hok ⊢
    rw [hm] at hok
    rw [hm']
    exact hok

/-- Invariant of the resolution loop relating the worklist of still-pending
entries and the current table: every pending entry comes from the decoded
file, and whenever the key of a pending entry is already bound, re-resolving
that entry reproduces exactly the bound value. -/
def GoodState (ds work : List ColorDef) (defs : ColorTable) : Prop :=
  (∀ cd ∈ work, cd ∈ ds) ∧
  (∀ cd ∈ work, ∀ v, mapGet defs ("@color/" ++ cd.name) = some v →
      parseColor cd.color defs = .ok v)

lemma name_inj {ds : List ColorDef} (hnd : (ds.map ColorDef.name).Nodup)
    {x y : ColorDef} (hx : x ∈ ds) (hy : y ∈ ds) (h : x.name = y.name) : x = y :=
  List.inj_on_of_nodup_map hnd hx hy h

lemma resolvePass_good {ds : List ColorDef} (hnd : (ds.map ColorDef.name).Nodup) :
    ∀ (cs rem : List ColorDef) (defs : ColorTable),
      GoodState ds (cs ++ rem) defs →
      StableExt defs (resolvePass defs cs rem).1 ∧
      GoodState ds (resolvePass defs cs rem).2 (resolvePass defs cs rem).1 ∧
      (∀ cd ∈ (resolvePass defs cs rem).2, cd ∈ cs ++ rem) := by
  intro cs
  induction cs with
  | nil =>
    intro rem defs hgood
    refine ⟨StableExt.refl defs, ?_, ?_⟩
    · simpa [resolvePass] using hgood
    · simp [resolvePass]
  | cons cd cs ih =>
    intro rem defs hgood
    have hcd_work : cd ∈ (cd :: cs) ++ rem := by simp
    cases hp : parseColor cd.color defs with
    | ok v =>
      have hcons : ∀ u, mapGet defs ("@color/" ++ cd.name) = some u → u = v := by
        intro u hu
        have := hgood.2 cd hcd_work u hu
        rw [hp] at this
        exact (Except.ok.inj this).symm
      have hstab : StableExt defs (mapSet defs ("@color/" ++ cd.name) v) := by
        intro k u hk
        by_cases hkey : ("@color/" ++ cd.name) = k
        · rw [← hkey] at hk ⊢
          rw [mapGet_mapSet_self]
          rw [hcons u hk]
        · rw [mapGet_mapSet_ne _ _ _ _ hkey]
          exact hk
      have hgood' : GoodState ds (cs ++ rem) (mapSet defs ("@color/" ++ cd.name) v) := by
        constructor
        · intro ce hce
          exact hgood.1 ce (by simp at hce ⊢; tauto)
        · intro ce hce u hu
          have hce_work : ce ∈ (cd :: cs) ++ rem := by simp at hce ⊢; tauto
          by_cases hname : ce.name = cd.name
          · have hce_eq : ce = cd :=
              name_inj hnd (hgood.1 ce hce_work) (hgood.1 cd hcd_work) hname
            subst hce_eq
            rw [mapGet_mapSet_self] at hu
            rw [← Option.some.inj hu]
            exact parseColor_stable ce.name v hp hcons
          · have hkeyne : ("@color/" ++ cd.name) ≠ ("@color/" ++ ce.name) :=
              fun h => hname (colorKey_inj h).symm
            rw [mapGet_mapSet_ne _ _ _ _ hkeyne] at hu
            have := hgood.2 ce hce_work u hu
            exact parseColor_stable cd.name v this hcons
      have hres : resolvePass defs (cd :: cs) rem =
          resolvePass (mapSet defs ("@color/" ++ cd.name) v) cs rem := by
        rw [resolvePass, hp]
      obtain ⟨s1, g1, m1⟩ := ih rem (mapSet defs ("@color/" ++ cd.name) v) hgood'
      rw [hres]
      refine ⟨hstab.trans s1, g1, ?_⟩
      intro ce hce
      have := m1 ce hce
      simp at this ⊢
      tauto
    | error e =>
      have hgood'' : GoodState ds (cs ++ (rem ++ [cd])) defs := by
        constructor
        · intro ce hce
          exact hgood.1 ce (by simp at hce ⊢; tauto)
        · intro ce hce u hu
          exact hgood.2 ce (by simp at hce ⊢; tauto) u hu
      have hres : resolvePass defs (cd :: cs) rem = resolvePass defs cs (rem ++ [cd]) := by
        rw [resolvePass, hp]
      obtain ⟨s1, g1, m1⟩ := ih (rem ++ [cd]) defs hgood''
      rw [hres]
      refine ⟨s1, g1, ?_⟩
      intro ce hce
      have := m1 ce hce
      simp at this ⊢
      tauto

lemma resolveLoop_chain {ds : List ColorDef} (hnd : (ds.map ColorDef.name).Nodup) :
    ∀ (fuel : Nat) (colors rem : List ColorDef) (defs : ColorTable),
      GoodState ds (colors ++ rem) defs →
      List.Chain' StableExt (defs :: resolveTrace fuel colors defs rem) := by
  intro fuel
  induction fuel with
  | zero => intro colors rem defs _; simp [resolveTrace]
  | succ fuel ih =>
    intro colors rem defs hgood
    obtain ⟨s1, g1, _⟩ := resolvePass_good hnd colors rem defs hgood
    rw [resolveTrace]
    by_cases hstop : (resolvePass defs colors rem).2.length = 0 ∨
        colors.length = (resolvePass defs colors rem).2.length
    · simp only [hstop, if_pos]
      exact List.chain'_pair.mpr s1
    · simp only [if_neg hstop]
      have hgood2 : GoodState ds ((resolvePass defs colors rem).2 ++
          (resolvePass defs colors rem).2) (resolvePass defs colors rem).1 := by
        refine ⟨?_, ?_⟩
        · intro ce hce
          exact g1.1 ce (by simp at hce; tauto)
        · intro ce hce u hu
          exact g1.2 ce (by simp at hce; tauto) u hu
      have := ih (resolvePass defs colors rem).2 (resolvePass defs colors rem).2
        (resolvePass defs colors rem).1 hgood2
      exact this.cons' (by
        intro y hy
        simp at hy
        subst hy
        exact s1)

/-- C9 (amended): provided no two entries of the colors file share a name and
the initial table (built from `-color` flags) has no `@color/`-prefixed keys,
the table is pass-to-pass stable during `parseColorsFile`: every binding
visible after some pass — in particular each `@color/name` binding inserted
when `name` was resolved — is still visible with the same value after every
later pass.  (`resolveTrace` records the table at the end of each executed
pass of the same loop.) -/
theorem parseColorsFile_no_overwrite (ds : List ColorDef) (t₀ : ColorTable) (fuel : Nat)
    (hnd : (ds.map ColorDef.name).Nodup)
    (h₀ : ∀ n : String, mapGet t₀ ("@color/" ++ n) = none) :
    List.Pairwise StableExt (t₀ :: resolveTrace fuel ds t₀ []) := by
  have hgood : GoodState ds (ds ++ []) t₀ := by
    refine ⟨?_, ?_⟩
    · intro cd hcd; simpa using hcd
    · intro cd _ v hv
      rw [h₀ cd.name] at hv
      exact absurd hv (by simp)
  have hchain := resolveLoop_chain hnd fuel ds [] t₀ hgood
  exact List.chain'_iff_pairwise.mp hchain

theorem parseColorsFile_no_overwrite_witness :
    List.Pairwise StableExt
      ([] :: resolveTrace 2 [⟨"a", "@color/b"⟩, ⟨"b", "#FF0000"⟩] [] []) :=
  parseColorsFile_no_overwrite [⟨"a", "@color/b"⟩, ⟨"b", "#FF0000"⟩] [] 2
    (by decide) (fun _ => rfl)

/-- C9 (counterexample to the claim as stated): with the colors file
`[a="@color/b", b="#F00", b="@color/c", c="#0F0"]` (the name `b` defined
twice), the name `b` is resolved to opaque red during pass 1 and its table
binding `@color/b` is overwritten with opaque green by pass 2, after which
the loop stops: a successfully resolved binding IS overwritten with a
different value by a later pass. -/
theorem parseColorsFile_overwrite_counterexample :
    mapGet (resolvePass []
        [⟨"a", "@color/b"⟩, ⟨"b", "#F00"⟩, ⟨"b", "@color/c"⟩, ⟨"c", "#0F0"⟩] []).1
        "@color/b" = some ⟨255, 0, 0, 255⟩
    ∧ (parseColorsFile
        [⟨"a", "@color/b"⟩, ⟨"b", "#F00"⟩, ⟨"b", "@color/c"⟩, ⟨"c", "#0F0"⟩] [] 2).map
        (fun t => mapGet t "@color/b") = some (some ⟨0, 255, 0, 255⟩)
    ∧ (⟨255, 0, 0, 255⟩ : NRGBA) ≠ ⟨0, 255, 0, 255⟩ := by
  refine ⟨rfl, rfl, by decide⟩

/-- One scan step of Go's regexp search for `(\d+)dp` (`dpNumPattern`,
vectopng.go line 20, applied unanchored via `FindStringSubmatch`): at each
start position, the greedy `\d+` takes the maximal digit run (a shorter run
can never be followed by `d`, its next character being a digit), the literal
`dp` must follow, and failure moves the start one character to the right —
yielding the leftmost match.  Returns the capture group (the digit run). -/
def findDpMatch : List Char → Option (List Char)
  | [] => none
  | c :: rest =>
    if (c :: rest).takeWhile Char.isDigit ≠ [] ∧
        ((c :: rest).dropWhile Char.isDigit).take 2 = ['d', 'p'] then
      some ((c :: rest).takeWhile Char.isDigit)
    else findDpMatch rest

/-- The exact integer value of the captured decimal digit run. -/
def digitsToNat (ds : List Char) : Nat :=
  ds.foldl (fun acc c => 10 * acc + (c.toNat - '0'.toNat)) 0

/-- Float32 unit-in-the-last-place exponent for an integer `n ≥ 2^24`: the
least `p ≤ 105` with `n < 2^(24+p)` (then `2^(23+p) ≤ n < 2^(24+p)` and the
float32 values around `n` are the multiples of `2^p`).  The cap `p = 105`
also covers every `n ≥ 2^129`, whose rounding overflows regardless. -/
def ulpExp (n : Nat) : Nat :=
  (List.range 106).foldr (fun q acc => if n < 2 ^ (24 + q) then q else acc) 105

/-- `strconv.ParseFloat(s, 32)` (vectopng.go line 263) on a nonnegative
decimal integer: integers below `2^24` are exactly representable; larger
ones are rounded to the nearest multiple of the unit in the last place, ties
to the even mantissa; when the rounding reaches `2^128` the nearest float32
is infinite and ParseFloat reports `ErrRange` (`none` here).  The float64
widening of a float32 is exact, so the in-range result is the rounded
integer itself. -/
def roundFloat32 (n : Nat) : Option Nat :=
  if n < 2 ^ 24 then some n
  else
    let ulp := 2 ^ ulpExp n
    let q := n / ulp
    let r := n % ulp
    let rounded :=
      if 2 * r < ulp then q
      else if ulp < 2 * r then q + 1
      else if q % 2 = 0 then q else q + 1
    if rounded * ulp < 2 ^ 128 then some (rounded * ulp) else none

/-- `parseDpNum` (vectopng.go lines 257-268): regexp search for `(\d+)dp`
anywhere in the text; no match is `Invalid <field> "<text>"`; on a match the
captured digits go through `strconv.ParseFloat(capture, 32)`, whose rounded
value is returned and whose `ErrRange` failure is propagated as the
function's error. -/
def parseDpNum (n : String) (name : String) : Except VError Nat :=
  match findDpMatch n.data with
  | some ds =>
    match roundFloat32 (digitsToNat ds) with
    | some v => .ok v
    | none => .error (.rangeError (String.mk ds))
  | none => .error (.invalidDimension name n)

lemma roundFloat32_small {m : Nat} (h : m < 2 ^ 24) : roundFloat32 m = some m := by
  unfold roundFloat32
  rw [if_pos h]

lemma findDpMatch_sound :
    ∀ (l ds : List Char), findDpMatch l = some ds →
      ∃ pre post, l = pre ++ ds ++ 'd' :: 'p' :: post ∧ ds ≠ [] ∧ ds.all Char.isDigit := by
  intro l
  induction l with
  | nil => intro ds h; exact absurd h (by simp [findDpMatch])
  | cons c rest ih =>
    intro ds h
    rw [findDpMatch] at h
    by_cases hc : (c :: rest).takeWhile Char.isDigit ≠ [] ∧
        ((c :: rest).dropWhile Char.isDigit).take 2 = ['d', 'p']
    · rw [if_pos hc] at h
      have hds : ds = (c :: rest).takeWhile Char.isDigit := (Option.some.inj h).symm
      have hsplit : (c :: rest) = ds ++ (c :: rest).dropWhile Char.isDigit := by
        rw [hds]; exact (List.takeWhile_append_dropWhile _ _).symm
      have hdp : (c :: rest).dropWhile Char.isDigit =
          'd' :: 'p' :: ((c :: rest).dropWhile Char.isDigit).drop 2 := by
        rcases hq : (c :: rest).dropWhile Char.isDigit with _ | ⟨x, _ | ⟨y, q⟩⟩
        · rw [hq] at hc; exact absurd hc.2 (by simp)
        · rw [hq] at hc; exact absurd hc.2 (by simp)
        · rw [hq] at hc
          have h2 : x = 'd' ∧ y = 'p' := by
            have h3 := hc.2
            simpa using h3
          simp [h2.1, h2.2]
      refine ⟨[], ((c :: rest).dropWhile Char.isDigit).drop 2, ?_, ?_, ?_⟩
      · rw [List.nil_append]
        conv_lhs => rw [hsplit, hdp]
      · rw [hds]; exact hc.1
      · rw [hds]
        simp only [List.all_eq_true]
        intro x hx
        exact List.mem_takeWhile_imp hx
    · rw [if_neg hc] at h
      obtain ⟨pre, post, heq, hne, hdig⟩ := ih ds h
      exact ⟨c :: pre, post, by simp [heq], hne, hdig⟩

lemma findDpMatch_complete :
    ∀ (pre l mid post : List Char), l = pre ++ mid ++ 'd' :: 'p' :: post →
      mid ≠ [] → mid.all Char.isDigit → (findDpMatch l).isSome := by
  intro pre
  induction pre with
  | nil =>
    intro l mid post heq hne hdig
    rcases mid with _ | ⟨m, ms⟩
    · exact absurd rfl hne
    · subst heq
      have hmem : ∀ a ∈ m :: ms, Char.isDigit a = true := by
        simpa using hdig
      have htake : (m :: (ms ++ 'd' :: 'p' :: post)).takeWhile Char.isDigit =
          (m :: ms) ++ ('d' :: 'p' :: post).takeWhile Char.isDigit :=
        List.takeWhile_append_of_pos hmem
      have hdrop : (m :: (ms ++ 'd' :: 'p' :: post)).dropWhile Char.isDigit =
          ('d' :: 'p' :: post).dropWhile Char.isDigit :=
        List.dropWhile_append_of_pos hmem
      simp only [List.nil_append, List.cons_append]
      rw [findDpMatch, htake, hdrop]
      simp [List.takeWhile_cons, List.dropWhile_cons]
  | cons p ps ih =>
    intro l mid post heq hne hdig
    subst heq
    rw [List.cons_append, List.cons_append, findDpMatch]
    by_cases hcond : (p :: (ps ++ mid ++ 'd' :: 'p' :: post)).takeWhile Char.isDigit ≠ [] ∧
        ((p :: (ps ++ mid ++ 'd' :: 'p' :: post)).dropWhile Char.isDigit).take 2 = ['d', 'p']
    · rw [if_pos hcond]; simp
    · rw [if_neg hcond]
      have := ih (ps ++ mid ++ 'd' :: 'p' :: post) mid post (by simp) hne hdig
      simpa using this

/-- C5 (amended): the unanchored regexp `(\d+)dp` finds a match exactly when
the text CONTAINS a nonempty digit run immediately followed by `dp`; with no
match `parseDpNum` fails with `InvalidDimension` naming the field and the
text; with a match the leftmost maximal digit run goes through
`strconv.ParseFloat(run, 32)`, whose rounded-to-float32 value is returned
and whose out-of-range failure is propagated as the range error.  On a text
that is exactly `<digits>dp` with an exactly representable value (below
`2^24`) the integer magnitude itself is returned; `16777217dp` is rounded to
`16777216`, and a 39-digit run overflows float32 and fails. -/
theorem parseDpNum_characterization (n name : String) :
    ((∃ ds, findDpMatch n.data = some ds) ↔
      ∃ pre mid post, n.data = pre ++ mid ++ 'd' :: 'p' :: post ∧
        mid ≠ [] ∧ mid.all Char.isDigit)
    ∧ (findDpMatch n.data = none →
        parseDpNum n name = .error (.invalidDimension name n))
    ∧ (∀ ds, findDpMatch n.data = some ds →
        (∀ v, roundFloat32 (digitsToNat ds) = some v → parseDpNum n name = .ok v)
        ∧ (roundFloat32 (digitsToNat ds) = none →
            parseDpNum n name = .error (.rangeError (String.mk ds))))
    ∧ (∀ ds : List Char, ds ≠ [] → ds.all Char.isDigit → digitsToNat ds < 2 ^ 24 →
        n.data = ds ++ ['d', 'p'] → parseDpNum n name = .ok (digitsToNat ds))
    ∧ parseDpNum "16777217dp" name = .ok 16777216
    ∧ parseDpNum "999999999999999999999999999999999999999dp" name =
        .error (.rangeError "999999999999999999999999999999999999999") := by
  refine ⟨⟨?_, ?_⟩, ?_, ?_, ?_, rfl, rfl⟩
  · rintro ⟨ds, hds⟩
    obtain ⟨pre, post, heq, hne, hdig⟩ := findDpMatch_sound n.data ds hds
    exact ⟨pre, ds, post, by simpa using heq, hne, hdig⟩
  · rintro ⟨pre, mid, post, heq, hne, hdig⟩
    have := findDpMatch_complete pre n.data mid post heq hne hdig
    exact Option.isSome_iff_exists.mp this
  · intro hnone
    unfold parseDpNum
    rw [hnone]
  · intro ds hds
    constructor
    · intro v hv
      unfold parseDpNum
      rw [hds]
      simp [hv]
    · intro hnone
      unfold parseDpNum
      rw [hds]
      simp [hnone]
  · intro ds hne hdig hsmall heq
    have hmem : ∀ a ∈ ds, Char.isDigit a = true := by simpa using hdig
    rcases ds with _ | ⟨m, ms⟩
    · exact absurd rfl hne
    · have htake : (m :: (ms ++ ['d', 'p'])).takeWhile Char.isDigit =
          (m :: ms) ++ (['d', 'p'] : List Char).takeWhile Char.isDigit :=
        List.takeWhile_append_of_pos hmem
      have hdrop : (m :: (ms ++ ['d', 'p'])).dropWhile Char.isDigit =
          (['d', 'p'] : List Char).dropWhile Char.isDigit :=
        List.dropWhile_append_of_pos hmem
      have hfind : findDpMatch n.data = some (m :: ms) := by
        rw [heq]
        simp only [List.cons_append]
        rw [findDpMatch, htake, hdrop]
        simp [List.takeWhile_cons, List.dropWhile_cons]
      unfold parseDpNum
      rw [hfind]
      simp [roundFloat32_small hsmall]

theorem parseDpNum_characterization_witness :
    parseDpNum "24dp" "width" = .ok 24 :=
  (parseDpNum_characterization "24dp" "width").2.2.2.1 ['2', '4']
    (by decide) (by decide) (by decide) rfl

/-- C5 (counterexample to the claim as stated): `"24dpx"` is not of the form
`<integer>dp` (its last two characters are not `dp`), yet `parseDpNum`
succeeds on it with 24 because the pattern is unanchored — so success is not
"exactly when the text is of the form `<integer>dp`". -/
theorem parseDpNum_unanchored_counterexample :
    parseDpNum "24dpx" "width" = .ok 24
    ∧ (∀ ds : List Char, "24dpx".data ≠ ds ++ ['d', 'p']) := by
  refine ⟨rfl, ?_⟩
  intro ds h
  have hlen : ("24dpx".data).length = ds.length + 2 := by rw [h]; simp
  have : ds.length = 3 := by simpa using hlen
  rcases ds with _ | ⟨a, _ | ⟨b, _ | ⟨c, _ | ⟨d, tl⟩⟩⟩⟩ <;> simp_all

/-- `strings.SplitN(value, "=", 2)` (vectopng.go line 55): split at the first
`=`; `none` models the length-1 result when no `=` occurs. -/
def splitEqList : List Char → Option (List Char × List Char)
  | [] => none
  | c :: rest =>
      if c = '=' then some ([], rest)
      else (splitEqList rest).map (fun p => (c :: p.1, p.2))

def splitEq (s : String) : Option (String × String) :=
  (splitEqList s.data).map (fun p => (String.mk p.1, String.mk p.2))

/-- `strings.TrimSpace` (vectopng.go lines 59 and 64), modelled over
`Char.isWhitespace` (the claims only exercise space-free inputs). -/
def trimSpace (s : String) : String :=
  String.mk (((s.data.dropWhile Char.isWhitespace).reverse.dropWhile
      Char.isWhitespace).reverse)

/-- `colorDefs.Set` (vectopng.go lines 54-67), the method invoked by the
`flag` package for each `-color name=value` argument.  NOTE: the source
passes `nil` — not the table built so far — as the second argument of
`parseColor` (line 59), modelled by the empty table `[]`. -/
def colorDefsSet (cd : ColorTable) (value : String) : Except String ColorTable :=
  match splitEq value with
  | none => .error ("Invalid color definition \"" ++ value ++ "\"")
  | some (rawName, rawColor) =>
    match parseColor (trimSpace rawColor) [] with
    | .error _ => .error ("Invalid color definition \"" ++ value ++ "\"")
    | .ok c => .ok (mapSet cd (trimSpace rawName) c)

/-- C3 (amended): each `-color` value is parsed with a nil table, so there is
no self-reference: whatever the current table `cd` contains — even a binding
for exactly the referenced name — a value that is not a literal hex color
fails with the invalid-definition error instead of resolving through the
table. -/
theorem colorDefsSet_nil_table (cd : ColorTable) (value a rhs : String)
    (hsplit : splitEq value = some (a, rhs))
    (hnothex : colorMatch (trimSpace rhs) = none) :
    colorDefsSet cd value = .error ("Invalid color definition \"" ++ value ++ "\"") := by
  have hfail : parseColor (trimSpace rhs) [] = .error (.invalidColor (trimSpace rhs)) := by
    unfold parseColor
    rw [show mapGet [] (trimSpace rhs) = none from rfl, hnothex]
  unfold colorDefsSet
  rw [hsplit]
  simp [hfail]

theorem colorDefsSet_nil_table_witness :
    colorDefsSet [("a", ⟨255, 0, 0, 255⟩)] "b=a" =
      .error ("Invalid color definition \"b=a\"") :=
  colorDefsSet_nil_table [("a", ⟨255, 0, 0, 255⟩)] "b=a" "b" "a" rfl rfl

/-- C3 (counterexample to the claim as stated): after `-color a=#FF0000`
succeeds, a later `-color b=a` does NOT resolve `a` through the table — it
fails, because `parseColor` is called with `nil` instead of the table. -/
theorem colorDefsSet_counterexample :
    colorDefsSet [] "a=#FF0000" = .ok [("a", ⟨255, 0, 0, 255⟩)]
    ∧ colorDefsSet [("a", ⟨255, 0, 0, 255⟩)] "b=a" =
        .error ("Invalid color definition \"b=a\"") := by
  exact ⟨rfl, rfl⟩

/-- The flag-parsed configuration of `main` (vectopng.go lines 69-88):
the five declared flags and the positional arguments.  `scale` is kept as
raw text (its float parse is irrelevant to the claims). -/
structure Config where
  colorDefs : ColorTable
  colorsFile : String
  scale : String
  ios : Bool
  showVersion : Bool
  args : List String
deriving DecidableEq, Repr

def defaultConfig : Config :=
  { colorDefs := [], colorsFile := "", scale := "1", ios := false,
    showVersion := false, args := [] }

/-- Go's standard `flag.Parse` over exactly the flags declared in `main`
(vectopng.go lines 78-82): `color` (via `colorDefs.Set`), `colors`, `scale`,
`ios`, `version`.  One or two leading dashes are equivalent, `--` terminates
flag parsing, a first non-flag argument ends it, boolean flags take no
argument, and an undeclared flag name is the fatal
`flag provided but not defined` error (the Go library prints it and exits;
the `-name=value` spelling is not modelled, no claim exercises it). -/
def flagParse : List String → Config → Except String Config
  | [], cfg => .ok cfg
  | arg :: rest, cfg =>
    if arg = "--" then .ok { cfg with args := rest }
    else
      match arg.data with
      | '-' :: c :: nameRest =>
        let name := if c = '-' then String.mk nameRest else String.mk (c :: nameRest)
        if name = "color" then
          match rest with
          | v :: rest' =>
            match colorDefsSet cfg.colorDefs v with
            | .ok t => flagParse rest' { cfg with colorDefs := t }
            | .error e => .error e
          | [] => .error ("flag needs an argument: -" ++ name)
        else if name = "colors" then
          match rest with
          | v :: rest' => flagParse rest' { cfg with colorsFile := v }
          | [] => .error ("flag needs an argument: -" ++ name)
        else if name = "scale" then
          match rest with
          | v :: rest' => flagParse rest' { cfg with scale := v }
          | [] => .error ("flag needs an argument: -" ++ name)
        else if name = "ios" then flagParse rest { cfg with ios := true }
        else if name = "version" then flagParse rest { cfg with showVersion := true }
        else .error ("flag provided but not defined: -" ++ name)
      | _ => .ok { cfg with args := arg :: rest }

/-- `main` does not declare `-x` or `-y` flags (its flag set is exactly
`color`, `colors`, `scale`, `ios`, `version`), so any invocation passing
`-x N` or `-y N` is rejected by the flag parser with
`flag provided but not defined` instead of being accepted. -/
theorem flags_xy_not_declared (v : String) (rest : List String) (cfg : Config) :
    flagParse ("-x" :: v :: rest) cfg = .error "flag provided but not defined: -x"
    ∧ flagParse ("-y" :: v :: rest) cfg = .error "flag provided but not defined: -y" := by
  exact ⟨rfl, rfl⟩

/-- C7 (code bug): the concrete invocation `vectopng -x 10 in.xml` is not
accepted — `flag.Parse` fails on the undeclared `-x`, although the
repository's own README documents `-x`/`-y` translation flags (the code
never declares them, contradicting its documentation and the claim). -/
theorem flags_xy_counterexample :
    flagParse ["-x", "10", "in.xml"] defaultConfig =
      .error "flag provided but not defined: -x" := rfl

/-- `filepath.Ext` (used in vectopng.go line 282): length of the suffix that
starts at the final dot in the final path element, found by scanning the
REVERSED character list — `none` when a `/` (path separator) or the start of
the string is reached before any dot. -/
def extLenRev : List Char → Option Nat
  | [] => none
  | c :: rest =>
      if c = '.' then some 1
      else if c = '/' then none
      else (extLenRev rest).map (· + 1)

def pathExtLen (p : String) : Nat :=
  (extLenRev p.data.reverse).getD 0

/-- `pathWithoutExtension` (vectopng.go lines 281-283):
`strings.TrimSuffix(p, filepath.Ext(p))` — the extension is a suffix by
construction, so trimming it keeps the first `length - extLen` characters. -/
def pathWithoutExtension (p : String) : String :=
  String.mk (p.data.take (p.data.length - pathExtLen p))

/-- The output-file selection of `main` (vectopng.go lines 95-105): one
positional argument derives the PNG path from the input path, two use the
second as given, anything else is the usage error (exit 1). -/
def resolveFiles : List String → Option (String × String)
  | [v] => some (v, pathWithoutExtension v ++ ".png")
  | [v, p] => some (v, p)
  | _ => none

/-- The `saveCanvas` calls of `main` (vectopng.go lines 128-132): the base
file at the given scale always, plus the `@2x`/`@3x` variants at double and
triple scale when `-ios` is set. -/
def plannedOutputs (pngFile : String) (scaleFactor : ℚ) (ios : Bool) :
    List (String × ℚ) :=
  (pngFile, scaleFactor) ::
    (if ios then
      [(pathWithoutExtension pngFile ++ "@2x.png", 2 * scaleFactor),
       (pathWithoutExtension pngFile ++ "@3x.png", 3 * scaleFactor)]
     else [])

lemma pathWithoutExtension_append_png (s : String) :
    pathWithoutExtension (s ++ ".png") = s := by
  have hdata : (s ++ ".png").data = s.data ++ ['.', 'p', 'n', 'g'] := by
    rw [String.data_append]
  have hrev : (s ++ ".png").data.reverse = 'g' :: 'n' :: 'p' :: '.' :: s.data.reverse := by
    rw [hdata, List.reverse_append]
    rfl
  have hext : pathExtLen (s ++ ".png") = 4 := by
    unfold pathExtLen
    rw [hrev]
    rfl
  unfold pathWithoutExtension
  rw [hext, hdata]
  have hlen : (s.data ++ ['.', 'p', 'n', 'g']).length - 4 = s.data.length := by
    simp
  rw [hlen, List.take_left' rfl]

/-- C10: with only the input path given, the output path is the input path
with its extension stripped plus `.png`; with `-ios` set, exactly three
files are planned — `name.png`, `name@2x.png`, `name@3x.png` (the suffix
inserted before the `.png` extension) at 1×, 2× and 3× of the base scale —
and without `-ios`, only the base file. -/
theorem output_files_spec (input : String) (scaleFactor : ℚ) (base : String) :
    resolveFiles [input] = some (input, pathWithoutExtension input ++ ".png")
    ∧ plannedOutputs (base ++ ".png") scaleFactor true =
        [(base ++ ".png", scaleFactor),
         (base ++ "@2x.png", 2 * scaleFactor),
         (base ++ "@3x.png", 3 * scaleFactor)]
    ∧ (plannedOutputs (base ++ ".png") scaleFactor true).length = 3
    ∧ plannedOutputs (base ++ ".png") scaleFactor false = [(base ++ ".png", scaleFactor)] := by
  refine ⟨rfl, ?_, rfl, rfl⟩
  unfold plannedOutputs
  rw [if_pos rfl, pathWithoutExtension_append_png]

/-- A `path` element of the vector drawable (`vectorPath`, vectopng.go lines
32-37); the empty string models an absent attribute, as in Go. -/
structure VectorPath where
  fillColor : String
  strokeColor : String
  strokeWidth : ℚ
  pathData : String
deriving DecidableEq, Repr

/-- The decoded vector drawable (`vector`, vectopng.go lines 23-30). -/
structure VectorDoc where
  width : String
  height : String
  viewportWidth : ℚ
  viewportHeight : ℚ
  paths : List VectorPath
deriving DecidableEq, Repr

/-- The coordinate-system enum of the rendering collaborator
(tdewolff/canvas): `cartesianI` is the collaborator's default "y-axis up,
origin bottom-left" convention; `cartesianIV` mirrors the y axis, i.e.
"y-axis down, origin top-left". -/
inductive CoordSystem where
  | cartesianI
  | cartesianII
  | cartesianIII
  | cartesianIV
deriving DecidableEq, Repr

/-- An affine view matrix of the collaborator, `(a b; c d)` linear part plus
`(e, f)` translation; `b`/`c` are the skew/rotation entries. -/
structure AffineMatrix where
  a : ℚ
  b : ℚ
  c : ℚ
  d : ℚ
  e : ℚ
  f : ℚ
deriving DecidableEq, Repr

/-- `canvas.Identity.Scale(sx, sy)`: pure axis scaling, no rotation, skew or
translation. -/
def identityScale (sx sy : ℚ) : AffineMatrix :=
  ⟨sx, 0, 0, sy, 0, 0⟩

/-- `canvas.Transparent` (fully transparent RGBA zero value). -/
def transparent : NRGBA := ⟨0, 0, 0, 0⟩

/-- The calls `renderVector` issues to the rendering collaborator, in order. -/
inductive RenderCmd where
  | newCanvas (w h : ℚ)
  | setCoordSystem (cs : CoordSystem)
  | setView (m : AffineMatrix)
  | setFillColor (c : NRGBA)
  | setStrokeColor (c : NRGBA)
  | setStrokeWidth (w : ℚ)
  | drawPath (x y : ℚ) (d : String)
deriving DecidableEq, Repr

/-- Outcome of the render stage of `main`: a normal command trace, the
`errorExit` path (prints `ERROR: <msg>` and calls `os.Exit(1)`), or a Go
runtime panic (raised by `canvas.MustParseSVGPath` on malformed path data,
vectopng.go line 152 — the process aborts with a panic trace and exit
status 2, never reaching `errorExit`). -/
inductive Outcome where
  | finished (cmds : List RenderCmd)
  | exitOne (msg : String)
  | panicked (pathData : String)
deriving DecidableEq, Repr

def Outcome.isExitOne : Outcome → Bool
  | .exitOne _ => true
  | _ => false

/-- Result of `renderVector` itself: command trace, returned error, or the
`MustParseSVGPath` panic. -/
inductive RenderResult where
  | ok (cmds : List RenderCmd)
  | err (e : VError)
  | panicked (pathData : String)
deriving DecidableEq, Repr

/-- The optional color attribute treatment of the path loop (vectopng.go
lines 156-169): an empty attribute sets nothing, a present one is resolved
through `parseColor` (propagating its error). -/
def optColor (tok : String) (defs : ColorTable) : Except VError (Option NRGBA) :=
  if tok = "" then .ok none else (parseColor tok defs).map some

/-- The `for _, pathElem := range vec.Paths` loop of `renderVector`
(vectopng.go lines 151-171), parameterized by the external SVG path parser
`svgParse` (`true` = parses; `canvas.MustParseSVGPath` panics otherwise —
note the source parses the path data BEFORE touching the colors).  Fill and
stroke are reset to transparent, the stroke width set, the optional colors
resolved through `parseColor` (propagating the first error), and the path
drawn at the origin. -/
def renderPaths (svgParse : String → Bool) (defs : ColorTable) :
    List VectorPath → RenderResult
  | [] => .ok []
  | p :: ps =>
    if svgParse p.pathData = false then .panicked p.pathData
    else
      match optColor p.fillColor defs with
      | .error e => .err e
      | .ok fillc =>
        match optColor p.strokeColor defs with
        | .error e => .err e
        | .ok strokec =>
          match renderPaths svgParse defs ps with
          | .ok rest =>
            .ok ([.setFillColor transparent, .setStrokeColor transparent,
                  .setStrokeWidth p.strokeWidth] ++
                 (match fillc with | some c => [RenderCmd.setFillColor c] | none => []) ++
                 (match strokec with | some c => [RenderCmd.setStrokeColor c] | none => []) ++
                 [.drawPath 0 0 p.pathData] ++ rest)
          | other => other

/-- `renderVector` (vectopng.go lines 135-174): parse both dimensions,
create the canvas, select the `CartesianIV` coordinate system, set the view
to the independent viewport scaling, then run the path loop. -/
def renderVector (svgParse : String → Bool) (vec : VectorDoc) (defs : ColorTable) :
    RenderResult :=
  match parseDpNum vec.width "width" with
  | .error e => .err e
  | .ok w =>
    match parseDpNum vec.height "height" with
    | .error e => .err e
    | .ok h =>
      match renderPaths svgParse defs vec.paths with
      | .ok cmds =>
          .ok ([.newCanvas (w : ℚ) (h : ℚ), .setCoordSystem .cartesianIV,
                .setView (identityScale ((w : ℚ) / vec.viewportWidth)
                  ((h : ℚ) / vec.viewportHeight))] ++ cmds)
      | other => other

/-- The message text of `errorExit` (vectopng.go lines 285-295) for the
render-stage call site `errorExit("Cannot render vector file", err)`
(line 125). -/
def errMsg : VError → String
  | .invalidColor t => "Invalid color \"" ++ t ++ "\""
  | .invalidDimension f t => "Invalid " ++ f ++ " \"" ++ t ++ "\""
  | .rangeError num => "strconv.ParseFloat: parsing \"" ++ num ++ "\": value out of range"

/-- The render stage of `main` (vectopng.go lines 123-126): a returned error
goes through `errorExit` (message + exit status 1); a `MustParseSVGPath`
panic aborts the process without reaching `errorExit`. -/
def mainRender (svgParse : String → Bool) (vec : VectorDoc) (defs : ColorTable) :
    Outcome :=
  match renderVector svgParse vec defs with
  | .ok cmds => .finished cmds
  | .err e => .exitOne ("Cannot render vector file (" ++ errMsg e ++ ")")
  | .panicked d => .panicked d

/-- C4 (amended): whenever both dimensions parse and the render succeeds,
the first three collaborator calls are: create the `w × h` canvas, select
the `CartesianIV` coordinate system — "y-axis down, origin top-left", NOT
the claimed "y-axis up, origin bottom-left" (`CartesianI`) — and set the
view to the independent non-uniform scaling `w/viewportWidth`,
`h/viewportHeight` with zero skew/rotation entries. -/
theorem renderVector_view (svgParse : String → Bool) (vec : VectorDoc)
    (defs : ColorTable) (w h : Nat) (cmds : List RenderCmd)
    (hw : parseDpNum vec.width "width" = .ok w)
    (hh : parseDpNum vec.height "height" = .ok h)
    (hok : renderVector svgParse vec defs = .ok cmds) :
    cmds.take 3 = [.newCanvas (w : ℚ) (h : ℚ), .setCoordSystem .cartesianIV,
        .setView (identityScale ((w : ℚ) / vec.viewportWidth)
          ((h : ℚ) / vec.viewportHeight))]
    ∧ (identityScale ((w : ℚ) / vec.viewportWidth) ((h : ℚ) / vec.viewportHeight)).b = 0
    ∧ (identityScale ((w : ℚ) / vec.viewportWidth) ((h : ℚ) / vec.viewportHeight)).c = 0 := by
  unfold renderVector at hok
  rw [hw, hh] at hok
  cases hrp : renderPaths svgParse defs vec.paths with
  | ok rest =>
    rw [hrp] at hok
    have hok' : RenderResult.ok
        ([RenderCmd.newCanvas (w : ℚ) (h : ℚ), .setCoordSystem .cartesianIV,
          .setView (identityScale ((w : ℚ) / vec.viewportWidth)
            ((h : ℚ) / vec.viewportHeight))] ++ rest) = RenderResult.ok cmds := hok
    rw [← RenderResult.ok.inj hok']
    exact ⟨rfl, rfl, rfl⟩
  | err e => rw [hrp] at hok; exact absurd hok (by simp)
  | panicked d => rw [hrp] at hok; exact absurd hok (by simp)

theorem renderVector_view_witness :
    ([RenderCmd.newCanvas ((24 : Nat) : ℚ) ((24 : Nat) : ℚ),
      RenderCmd.setCoordSystem .cartesianIV,
      RenderCmd.setView (identityScale (((24 : Nat) : ℚ) / 24) (((24 : Nat) : ℚ) / 24))].take 3 =
        [.newCanvas ((24 : Nat) : ℚ) ((24 : Nat) : ℚ), .setCoordSystem .cartesianIV,
         .setView (identityScale (((24 : Nat) : ℚ) / 24) (((24 : Nat) : ℚ) / 24))])
    ∧ (identityScale (((24 : Nat) : ℚ) / 24) (((24 : Nat) : ℚ) / 24)).b = 0
    ∧ (identityScale (((24 : Nat) : ℚ) / 24) (((24 : Nat) : ℚ) / 24)).c = 0 :=
  renderVector_view (fun _ => true) ⟨"24dp", "24dp", 24, 24, []⟩ [] 24 24
    [.newCanvas ((24 : Nat) : ℚ) ((24 : Nat) : ℚ), .setCoordSystem .cartesianIV,
     .setView (identityScale (((24 : Nat) : ℚ) / 24) (((24 : Nat) : ℚ) / 24))]
    rfl rfl rfl

/-- C4 (counterexample to the orientation part of the claim as stated): on a
concrete well-formed document the emitted coordinate-system selection is
`CartesianIV` (y-axis down, origin top-left), which is not the
"y-axis up, origin bottom-left" convention (`CartesianI`) the claim names. -/
theorem renderVector_coordsystem_counterexample :
    renderVector (fun _ => true) ⟨"24dp", "24dp", 24, 24, []⟩ [] =
      .ok [.newCanvas ((24 : Nat) : ℚ) ((24 : Nat) : ℚ), .setCoordSystem .cartesianIV,
           .setView (identityScale (((24 : Nat) : ℚ) / 24) (((24 : Nat) : ℚ) / 24))]
    ∧ CoordSystem.cartesianIV ≠ CoordSystem.cartesianI := by
  refine ⟨rfl, by decide⟩

lemma renderPaths_panics (svg : String → Bool) (defs : ColorTable) :
    ∀ ps : List VectorPath,
      (∀ p ∈ ps, (∃ oc, optColor p.fillColor defs = .ok oc) ∧
          (∃ oc, optColor p.strokeColor defs = .ok oc)) →
      (∃ p ∈ ps, svg p.pathData = false) →
      ∃ d, renderPaths svg defs ps = .panicked d := by
  intro ps
  induction ps with
  | nil =>
    rintro _ ⟨p, hp, _⟩
    simp at hp
  | cons p ps ih =>
    rintro hcolors ⟨q, hq, hqsvg⟩
    by_cases hsvg : svg p.pathData = false
    · exact ⟨p.pathData, by rw [renderPaths, if_pos hsvg]⟩
    · have hq' : q ∈ ps := by
        rcases List.mem_cons.mp hq with h | h
        · subst h; exact absurd hqsvg hsvg
        · exact h
      obtain ⟨fc, hfc⟩ := (hcolors p (by simp)).1
      obtain ⟨sc, hsc⟩ := (hcolors p (by simp)).2
      obtain ⟨d, hd⟩ := ih (fun r hr => hcolors r (by simp [hr])) ⟨q, hq', hqsvg⟩
      refine ⟨d, ?_⟩
      rw [renderPaths, if_neg hsvg, hfc, hsc, hd]

/-- C6 (amended): every error RETURNED by the render path reaches
`errorExit` — "Cannot render vector file (...)" and exit status 1 — but a
malformed path-data string never becomes such an error: `MustParseSVGPath`
panics before the colors of its element are even looked at, so the run
aborts through a Go runtime panic (exit status 2), not through the
status-1 `errorExit` path the claim describes. -/
theorem render_error_policy (svg : String → Bool) (vec : VectorDoc) (defs : ColorTable) :
    (∀ e, renderVector svg vec defs = .err e →
        mainRender svg vec defs = .exitOne ("Cannot render vector file (" ++ errMsg e ++ ")"))
    ∧ (∀ w h : Nat, parseDpNum vec.width "width" = .ok w →
        parseDpNum vec.height "height" = .ok h →
        (∀ p ∈ vec.paths, (∃ oc, optColor p.fillColor defs = .ok oc) ∧
            (∃ oc, optColor p.strokeColor defs = .ok oc)) →
        (∃ p ∈ vec.paths, svg p.pathData = false) →
        ∃ d, mainRender svg vec defs = .panicked d) := by
  constructor
  · intro e he
    unfold mainRender
    rw [he]
  · intro w h hw hh hcolors hbad
    obtain ⟨d, hd⟩ := renderPaths_panics svg defs vec.paths hcolors hbad
    refine ⟨d, ?_⟩
    unfold mainRender renderVector
    rw [hw, hh, hd]

theorem render_error_policy_witness :
    ∃ d, mainRender (fun s => s != "xyz")
        ⟨"24dp", "24dp", 24, 24, [⟨"#F00", "", 0, "xyz"⟩]⟩ [] = .panicked d :=
  (render_error_policy (fun s => s != "xyz")
      ⟨"24dp", "24dp", 24, 24, [⟨"#F00", "", 0, "xyz"⟩]⟩ []).2 24 24 rfl rfl
    (by
      intro p hp
      simp at hp
      subst hp
      exact ⟨⟨some ⟨255, 0, 0, 255⟩, rfl⟩, ⟨none, rfl⟩⟩)
    ⟨⟨"#F00", "", 0, "xyz"⟩, by simp, rfl⟩

/-- C6 (counterexample to the claim as stated): a run whose only defect is a
malformed path-data string (rejected by the collaborator's parser, here a
concrete stand-in accepting everything except `"xyz"`) errors out as a panic
— it does NOT take the "human-readable message and exit status 1"
`errorExit` path. -/
theorem mainRender_panic_counterexample :
    mainRender (fun s => s != "xyz")
        ⟨"24dp", "24dp", 24, 24, [⟨"#F00", "", 0, "xyz"⟩]⟩ [] = .panicked "xyz"
    ∧ (mainRender (fun s => s != "xyz")
        ⟨"24dp", "24dp", 24, 24, [⟨"#F00", "", 0, "xyz"⟩]⟩ []).isExitOne = false := by
  exact ⟨rfl, rfl⟩
